import Mathlib

/-!
Verification development for `backend/vector-service/build_index.py`.

The Python pipeline is shallowly embedded here.  JSON-decoded Python
values are modelled by `JVal`; Python numbers (including the non-finite
floats that `json.loads` admits for the tokens `NaN`, `Infinity` and
`-Infinity`) by `JNum`.  Machine `float32` arithmetic is idealised as
exact arithmetic over `ℚ`, and the batch L2-normalisation step is
modelled over `ℝ`.  The external collaborators (`json.loads`, `numpy`
array conversion, the `faiss` index engine, the filesystem) are
abstracted at their observable interfaces, as the spec treats them as
black boxes.
-/

set_option autoImplicit false

/-- Python numbers as produced by `json.loads`: ints, finite floats, and
the non-finite floats. -/
inductive JNum where
  | int (n : Int)
  | float (q : ℚ)
  | nan
  | inf
  | ninf
deriving DecidableEq

/-- JSON-decoded Python values. -/
inductive JVal where
  | null
  | bool (b : Bool)
  | num (x : JNum)
  | str (s : String)
  | arr (xs : List JVal)
  | obj (fields : List (String × JVal))

/-- A parsed NDJSON record: a Python dict from string keys to JSON
values.  `json.loads` never produces duplicate keys, and all code under
study observes a dict only through `get`, which returns the first (and
only) binding. -/
abbrev Rec := List (String × JVal)

/-- `r.get(k)` without default: `some v` if the key is bound, else `none`
(Python `None`). -/
def recGet (r : Rec) (k : String) : Option JVal :=
  match r with
  | [] => none
  | (k', v) :: rest => if k' = k then some v else recGet rest k

/-- `r.get(k)` viewed as a `JVal`, conflating a missing key with an
explicit JSON `null` exactly as Python's `None` does. -/
def recGetD (r : Rec) (k : String) : JVal :=
  (recGet r k).getD .null

/-- `r[k] = v`: overwrite the binding in place if the key exists, else
append it (Python dict assignment). -/
def recSet (r : Rec) (k : String) (v : JVal) : Rec :=
  match r with
  | [] => [(k, v)]
  | (k', v') :: rest => if k' = k then (k, v) :: rest else (k', v') :: recSet rest k v

/-- Python truthiness of a JSON-decoded value (`bool(x)`).  Note that
`nan` and the infinities are truthy, while `0`, `0.0`, `""`, `[]`, `{}`,
`False` and `None` are falsy. -/
def pyTruthy : JVal → Bool
  | .null => false
  | .bool b => b
  | .num (.int n) => n != 0
  | .num (.float q) => q != 0
  | .num .nan => true
  | .num .inf => true
  | .num .ninf => true
  | .str s => s ≠ ""
  | .arr xs => !xs.isEmpty
  | .obj fs => !fs.isEmpty

/-- Python `str` on a number.  The decimal rendering of a non-integral
float is abstracted (no claim depends on it); integers and the special
floats follow CPython exactly. -/
def numStr : JNum → String
  | .int n => toString n
  | .float q => if q.den = 1 then toString q.num ++ ".0" else toString q
  | .nan => "nan"
  | .inf => "inf"
  | .ninf => "-inf"

/-- Python `str` on a JSON-decoded value.  Container rendering is
abstracted to a fixed non-empty placeholder: every use in the source is
of the shape `str(x or "")`, so a container only reaches `str` when it
is non-empty, and the only facts consumed downstream are emptiness tests
and equality of the same function applied on both join sides. -/
def pyStr : JVal → String
  | .null => "None"
  | .bool true => "True"
  | .bool false => "False"
  | .num x => numStr x
  | .str s => s
  | .arr _ => "<list>"
  | .obj _ => "<dict>"

/-- The idiom `str(x or "")` applied to the result of `r.get(k)`: the
empty string when the value is missing or falsy, else its `str`. -/
def strOr (v : Option JVal) : String :=
  match v with
  | none => ""
  | some x => if pyTruthy x then pyStr x else ""

/-- `a or b` on JSON-decoded values (Python short-circuit `or`). -/
def pyOr (a b : JVal) : JVal :=
  if pyTruthy a then a else b

/-- Drop leading whitespace characters. -/
def dropWhileWs : List Char → List Char
  | [] => []
  | c :: cs => if c.isWhitespace then dropWhileWs cs else c :: cs

/-- Python `str.strip()`: remove leading and trailing whitespace.
(Defined by structural recursion over the character list so that it
evaluates on concrete inputs.) -/
def pyStrip (s : String) : String :=
  String.mk ((dropWhileWs (dropWhileWs s.data).reverse).reverse)

/-- Python `str.lower()` (ASCII case folding, like `Char.toLower`). -/
def pyLower (s : String) : String :=
  String.mk (s.data.map Char.toLower)

/-- `_stable_key` (build_index.py lines 44-60): the fallback chain
imdbId → id → key → "title|year" → "title:"+title → "". -/
def stable_key (m : Rec) : String :=
  let imdbId := pyStrip (strOr (recGet m "imdbId"))
  if imdbId ≠ "" then imdbId
  else
    let movieId := pyStrip (strOr (recGet m "id"))
    if movieId ≠ "" then movieId
    else
      let key := pyStrip (strOr (recGet m "key"))
      if key ≠ "" then key
      else
        let title := pyLower (pyStrip (strOr (recGet m "title")))
        let year := pyStrip (strOr (recGet m "year"))
        if title ≠ "" && year ≠ "" then title ++ "|" ++ year
        else if title ≠ "" then "title:" ++ title
        else ""

/-- The key resolution applied to a vector record in the join loop
(line 106): `str(r.get("key") or "").strip() or _stable_key(r)`. -/
def vectorKey (r : Rec) : String :=
  let k := pyStrip (strOr (recGet r "key"))
  if k ≠ "" then k else stable_key r

/-- Conversion of one JSON element to a number as performed by
`np.asarray(v, dtype=np.float32)` elementwise.  Booleans convert (to 0/1);
`null`, objects and nested values do not.  Numeric-string parsing by
numpy is abstracted as non-convertible; no claim's truth depends on which
scalar leaves convert, only on the structure of the checks. -/
def elemToNum : JVal → Option JNum
  | .num x => some x
  | .bool b => some (.int (if b then 1 else 0))
  | _ => none

/-- Elementwise conversion of a whole list, failing if any element
fails. -/
def mapOpt {α β : Type} (f : α → Option β) : List α → Option (List β)
  | [] => some []
  | a :: as =>
    match f a with
    | none => none
    | some b =>
      match mapOpt f as with
      | none => none
      | some bs => some (b :: bs)

/-- One nested row of a would-be 2-d array: an inner list whose elements
all convert. -/
def rowToNums : JVal → Option (List JNum)
  | .arr ys => mapOpt elemToNum ys
  | _ => none

/-- The shape of a successful `np.asarray(v, dtype=np.float32)` on a
non-empty list: a 1-d vector, or a rectangular 2-d array. -/
inductive NpArr where
  | one (ns : List JNum)
  | two (rows : List (List JNum))
deriving DecidableEq

/-- `np.asarray(xs, dtype=np.float32)` on a non-empty Python list,
abstracted to its observable outcome: `one` when every element is a
convertible scalar, `two` when every element is an equal-length list of
convertible scalars, and `none` (a raised exception) otherwise.  Deeper
nesting (3-d and beyond) is folded into the failure case; the source
rejects it either way. -/
def npAsArray (xs : List JVal) : Option NpArr :=
  match mapOpt elemToNum xs with
  | some ns => some (.one ns)
  | none =>
    match mapOpt rowToNums xs with
    | some rows =>
      match rows with
      | [] => none
      | r0 :: rest => if rest.all (fun r => r.length == r0.length) then some (.two (r0 :: rest)) else none
    | none => none

/-- Whether a number is non-finite (`not np.isfinite`). -/
def nonFinite : JNum → Bool
  | .nan => true
  | .inf => true
  | .ninf => true
  | _ => false

/-- The exact rational value of a finite number; junk on non-finite
input (only applied after the finiteness check). -/
def toRat : JNum → ℚ
  | .int n => (n : ℚ)
  | .float q => q
  | _ => 0

/-- Whether the length check against the expected dimension fails. -/
def dimMismatch (n : Nat) : Option Nat → Bool
  | some d => n != d
  | none => false

/-- `_coerce_vector` (lines 63-76): reject non-lists and empty lists,
then a mismatched expected dimension, then conversion failure, then a
non-1-d result, then non-finite entries; otherwise return the values as
a float32 array with no further transformation (float32 narrowing is
idealised to exact rationals). -/
def coerce_vector (v : JVal) (expected_dim : Option Nat) : Option (List ℚ) :=
  match v with
  | .arr xs =>
    if xs.isEmpty then none
    else if dimMismatch xs.length expected_dim then none
    else
      match npAsArray xs with
      | none => none
      | some (.two _) => none
      | some (.one ns) => if ns.any nonFinite then none else some (ns.map toRat)
  | _ => none

/-- `_iter_ndjson`'s per-file loop (lines 26-40), over the physical
lines of an existing file.  `loads` abstracts `json.loads`: `none`
models a `JSONDecodeError`.  The counter `i` is the 0-based enumeration
index; each kept record is annotated with the 1-based line number. -/
def iterGo (loads : String → Option JVal) : Nat → List String → List Rec
  | _, [] => []
  | i, line :: rest =>
    let s := pyStrip line
    if s = "" then iterGo loads (i + 1) rest
    else if s.startsWith "#" || s.startsWith "//" then iterGo loads (i + 1) rest
    else
      match loads s with
      | some (.obj fields) => recSet fields "__line__" (.num (.int (i + 1))) :: iterGo loads (i + 1) rest
      | _ => iterGo loads (i + 1) rest

/-- `_iter_ndjson` (lines 21-41).  A file is `none` when it does not
exist (then the result is the empty sequence) and otherwise the list of
its physical lines. -/
def iter_ndjson (loads : String → Option JVal) (file : Option (List String)) : List Rec :=
  match file with
  | none => []
  | some lines => iterGo loads 0 lines

/-- The line-keeping function of the Record Reader, stated on a 0-based
position paired with the line text, following the spec's description of
4.1: trim, drop blanks and comments, parse, keep objects only, annotate
the 1-based line number. -/
def keepLine (loads : String → Option JVal) (p : Nat × String) : Option Rec :=
  let s := pyStrip p.2
  if s = "" then none
  else if s.startsWith "#" || s.startsWith "//" then none
  else
    match loads s with
    | some (.obj fields) => some (recSet fields "__line__" (.num (.int (p.1 + 1))))
    | _ => none

/-- One Output Metadata Item (the dict literal of lines 121-133). -/
structure Meta where
  imdbId : JVal
  id : JVal
  key : String
  title : JVal
  year : JVal
  genre : JVal
  productionCountry : JVal
  moodTags : JVal

/-- Composition of an Output Metadata Item from the joined movie record
`m` (possibly `[]` when no movie matched) and the vector record `r`
(lines 117-133): field-wise Python `or`, with `moodTags` getting a final
`or []`. -/
def mkMeta (m r : Rec) (key : String) : Meta :=
  { imdbId := pyOr (recGetD m "imdbId") (recGetD r "imdbId")
  , id := pyOr (recGetD m "id") (recGetD r "id")
  , key := key
  , title := pyOr (recGetD m "title") (recGetD r "title")
  , year := pyOr (recGetD m "year") (recGetD r "year")
  , genre := pyOr (recGetD m "genre") (recGetD r "genre")
  , productionCountry := pyOr (recGetD m "productionCountry") (recGetD r "productionCountry")
  , moodTags := pyOr (pyOr (recGetD m "moodTags") (recGetD r "moodTags")) (.arr []) }

/-- One iteration of lines 82-86: `movie_by_key[key] = m`, skipping
records whose stable key is empty.  The Python dict is observed only
through `.get`, hence modelled as its lookup function; assignment
overwrites whatever was previously bound to the key. -/
def movieInsert (acc : String → Option Rec) (m : Rec) : String → Option Rec :=
  if stable_key m = "" then acc else fun q => if q = stable_key m then some m else acc q

/-- The join table built by folding `movieInsert` over the movie rows in
file order. -/
def buildMovieByKey (movies_rows : List Rec) : String → Option Rec :=
  movies_rows.foldl movieInsert (fun _ => none)

/-- Dimension inference (lines 92-97): length of the `vector` field of
the first record where it is a non-empty list. -/
def inferDim : List Rec → Option Nat
  | [] => none
  | r :: rest =>
    match recGetD r "vector" with
    | .arr xs => if xs.length > 0 then some xs.length else inferDim rest
    | _ => inferDim rest

/-- Loop state of lines 101-103: the `vectors` and `metas` accumulators
and the `skipped` tally. -/
abbrev LoopSt := List (List ℚ) × List Meta × Nat

/-- One iteration of the join loop (lines 105-133): resolve the key
(explicit `key` field first, else the stable-key chain), skip on an
empty key, coerce the vector against the inferred dimension, skip on
rejection, else look up the joined movie and append the vector and the
composed item pairwise. -/
def loopStep (movieByKey : String → Option Rec) (d : Nat) (st : LoopSt) (r : Rec) : LoopSt :=
  let key := vectorKey r
  if key = "" then (st.1, st.2.1, st.2.2 + 1)
  else
    match coerce_vector (recGetD r "vector") (some d) with
    | none => (st.1, st.2.1, st.2.2 + 1)
    | some vec =>
      let m := (movieByKey key).getD []
      (st.1 ++ [vec], st.2.1 ++ [mkMeta m r key], st.2.2)

/-- The per-record outcome of the join loop, factored out of `loopStep`:
`none` when the record is skipped, else the appended (vector, item)
pair. -/
def processRecord (movieByKey : String → Option Rec) (d : Nat) (r : Rec) : Option (List ℚ × Meta) :=
  let key := vectorKey r
  if key = "" then none
  else
    match coerce_vector (recGetD r "vector") (some d) with
    | none => none
    | some vec => some (vec, mkMeta ((movieByKey key).getD []) r key)

/-- Fatal pipeline errors: the `raise ValueError` sites, named by the
spec's taxonomy.  `missingInput` is line 90; `invalidInput` covers lines
99 and 136. -/
inductive BuildErr where
  | missingInput
  | invalidInput
deriving DecidableEq

/-- The assembled outputs of a successful run: the sidecar fields
(`dim`, `count`, `skipped`, `items`) and the stacked raw float32 matrix
of line 138 (normalisation is applied to it by `normalizeMat` below). -/
structure BuildOut where
  dim : Nat
  count : Nat
  skipped : Nat
  items : List Meta
  mat : List (List ℚ)

/-- `build_faiss_index` (lines 79-158) from the point after the two
input files have been read: the two arguments are the parsed record
lists produced by `_iter_ndjson`. -/
def build_faiss_index (movies_rows vector_rows : List Rec) : Except BuildErr BuildOut :=
  let movie_by_key := buildMovieByKey movies_rows
  if vector_rows.isEmpty then .error .missingInput
  else
    match inferDim vector_rows with
    | none => .error .invalidInput
    | some d =>
      let st := vector_rows.foldl (loopStep movie_by_key d) ([], [], 0)
      if st.1.isEmpty then .error .invalidInput
      else .ok ⟨d, st.2.1.length, st.2.2, st.2.1, st.1⟩

/-- The error of a pipeline run, if any. -/
def errOf (e : Except BuildErr BuildOut) : Option BuildErr :=
  match e with
  | .error err => some err
  | .ok _ => none

/-- The items of a successful run, `[]` on failure (used to state
concrete evaluations). -/
def buildItems (movies_rows vector_rows : List Rec) : List Meta :=
  match build_faiss_index movies_rows vector_rows with
  | .ok out => out.items
  | .error _ => []

/-- The observable file writes of one run, in program order: the index
file (line 149) then the sidecar (line 158). -/
inductive WEvent where
  | writeIndex (dim : Nat) (mat : List (List ℚ))
  | writeMeta (dim count skipped : Nat) (items : List Meta)

/-- The write trace of a run.  Both raises of `build_faiss_index`
(lines 90, 99, 136) precede both writes (lines 149, 158) in the source,
so a failing run emits no write event. -/
def writeEvents (movies_rows vector_rows : List Rec) : List WEvent :=
  match build_faiss_index movies_rows vector_rows with
  | .error _ => []
  | .ok out => [.writeIndex out.dim out.mat, .writeMeta out.dim out.count out.skipped out.items]

/-- L2 norm of a real row (`np.linalg.norm(row)`). -/
noncomputable def rowNormR (xs : List ℝ) : ℝ :=
  Real.sqrt ((xs.map (fun x => x ^ 2)).sum)

/-- L2 norm of a raw float32 row. -/
noncomputable def rowNorm (row : List ℚ) : ℝ :=
  rowNormR (row.map (fun q => (q : ℝ)))

/-- Normalisation of one row (lines 139-141): compute the L2 norm,
replace a zero norm by 1, divide elementwise. -/
noncomputable def normalizeRow (row : List ℚ) : List ℝ :=
  let n := rowNorm row
  let n' := if n = 0 then 1 else n
  row.map (fun q => (q : ℝ) / n')

/-- Batch normalisation of the stacked matrix (lines 138-141): the norms
are taken per row with `keepdims`, so the division acts row-wise. -/
noncomputable def normalizeMat (mat : List (List ℚ)) : List (List ℝ) :=
  mat.map normalizeRow

/-- Whether a record bears a usable vector for dimension inference
(spec 4.4 step 3): its `vector` field is a non-empty list. -/
def usableVec (r : Rec) : Bool :=
  match recGetD r "vector" with
  | .arr xs => !xs.isEmpty
  | _ => false

/-- The length of a record's `vector` field (0 when absent or not a
list). -/
def vecLen (r : Rec) : Nat :=
  match recGetD r "vector" with
  | .arr xs => xs.length
  | _ => 0

/-- The last movie record observed with a given key, in file order
(spec: "a mapping from Stable Key to the last Metadata Record observed
with that key"). -/
def lastMovieWith (movies_rows : List Rec) (k : String) : Option Rec :=
  (movies_rows.filter (fun m => stable_key m = k)).getLast?

/-- Field-wise preference between the joined movie record `m` and the
vector record `r`, stated in the spec's terms: the produced value is the
movie's when the movie's value is truthy, else the vector's own
same-named field (a missing field reading as null). -/
def fieldPref (m r : Rec) (f : String) (out : JVal) : Prop :=
  (pyTruthy (recGetD m f) = true → out = recGetD m f) ∧
  (pyTruthy (recGetD m f) = false → out = recGetD r f)

/-! ### General list lemmas -/

theorem zip_map_fst_snd_eq {α β : Type} (l : List (α × β)) :
    (l.map Prod.fst).zip (l.map Prod.snd) = l := by
  induction l with
  | nil => rfl
  | cons p rest ih => simp [ih]

theorem length_filterMap_add_countP {α β : Type} (f : α → Option β) (l : List α) :
    (l.filterMap f).length + l.countP (fun a => (f a).isNone) = l.length := by
  induction l with
  | nil => rfl
  | cons a rest ih =>
    cases h : f a <;>
      simp only [List.filterMap_cons, List.countP_cons, h, Option.isNone_none,
        Option.isNone_some, List.length_cons] <;>
      simp <;> omega

theorem mapOpt_length {α β : Type} (f : α → Option β) (l : List α) (ys : List β)
    (h : mapOpt f l = some ys) : ys.length = l.length := by
  induction l generalizing ys with
  | nil =>
    simp only [mapOpt] at h
    injection h with h'
    simp [← h']
  | cons a as ih =>
    unfold mapOpt at h
    cases hf : f a <;> rw [hf] at h
    · exact absurd h (by simp)
    · cases hm : mapOpt f as <;> rw [hm] at h
      · exact absurd h (by simp)
      · injection h with h'
        simp [← h', ih _ hm]

theorem getLast?_cons_or {α : Type} (a : α) (l : List α) :
    (a :: l).getLast? = l.getLast?.or (some a) := by
  induction l generalizing a with
  | nil => rfl
  | cons b bs ih =>
    rw [List.getLast?_cons_cons, ih b]
    cases bs.getLast? <;> rfl

/-! ### Characterisation of the join loop -/

theorem loopStep_none (mb : String → Option Rec) (d : Nat) (st : LoopSt) (r : Rec)
    (h : processRecord mb d r = none) :
    loopStep mb d st r = (st.1, st.2.1, st.2.2 + 1) := by
  unfold processRecord at h
  unfold loopStep
  by_cases hk : vectorKey r = ""
  · simp [hk]
  · simp only [hk, if_false, reduceIte] at h ⊢
    cases hc : coerce_vector (recGetD r "vector") (some d) <;> rw [hc] at h <;> simp_all

theorem loopStep_some (mb : String → Option Rec) (d : Nat) (st : LoopSt) (r : Rec)
    (v : List ℚ) (it : Meta) (h : processRecord mb d r = some (v, it)) :
    loopStep mb d st r = (st.1 ++ [v], st.2.1 ++ [it], st.2.2) := by
  unfold processRecord at h
  unfold loopStep
  by_cases hk : vectorKey r = ""
  · simp [hk] at h
  · simp only [hk] at h ⊢
    cases hc : coerce_vector (recGetD r "vector") (some d) <;> rw [hc] at h <;> simp_all

theorem foldl_loopStep (mb : String → Option Rec) (d : Nat) (rows : List Rec)
    (vs : List (List ℚ)) (ms : List Meta) (k : Nat) :
    rows.foldl (loopStep mb d) (vs, ms, k) =
      (vs ++ (rows.filterMap (processRecord mb d)).map Prod.fst,
       ms ++ (rows.filterMap (processRecord mb d)).map Prod.snd,
       k + rows.countP (fun r => (processRecord mb d r).isNone)) := by
  induction rows generalizing vs ms k with
  | nil => simp
  | cons r rest ih =>
    rw [List.foldl_cons]
    cases hpr : processRecord mb d r with
    | none =>
      rw [loopStep_none mb d _ r hpr, ih]
      simp [List.filterMap_cons, List.countP_cons, hpr]
      omega
    | some p =>
      obtain ⟨v, it⟩ := p
      rw [loopStep_some mb d _ r v it hpr, ih]
      simp [List.filterMap_cons, List.countP_cons, hpr]

/-! ### The skipped/retained outcome does not depend on the join table -/

theorem processRecord_isNone_indep (mb mb' : String → Option Rec) (d : Nat) (r : Rec) :
    (processRecord mb d r).isNone = (processRecord mb' d r).isNone := by
  unfold processRecord
  by_cases hk : vectorKey r = ""
  · simp [hk]
  · simp only [hk, if_false, reduceIte]
    cases coerce_vector (recGetD r "vector") (some d) <;> simp

theorem processRecord_fst_indep (mb mb' : String → Option Rec) (d : Nat) (r : Rec) :
    (processRecord mb d r).map Prod.fst = (processRecord mb' d r).map Prod.fst := by
  unfold processRecord
  by_cases hk : vectorKey r = ""
  · simp [hk]
  · simp only [hk, if_false, reduceIte]
    cases coerce_vector (recGetD r "vector") (some d) <;> simp

/-! ### Dimension facts about coerced vectors -/

theorem npAsArray_one_eq (xs : List JVal) (ns : List JNum)
    (h : npAsArray xs = some (.one ns)) : mapOpt elemToNum xs = some ns := by
  unfold npAsArray at h
  cases hm : mapOpt elemToNum xs <;> rw [hm] at h
  · cases hr : mapOpt rowToNums xs <;> rw [hr] at h
    · exact absurd h (by simp)
    · rename_i rows
      cases rows with
      | nil => exact absurd h (by simp)
      | cons r0 rest =>
        by_cases ha : rest.all (fun r => r.length == r0.length) <;> simp [ha] at h
  · simp at h
    rw [h]

theorem coerce_vector_length (v : JVal) (d : Nat) (row : List ℚ)
    (h : coerce_vector v (some d) = some row) : row.length = d := by
  unfold coerce_vector at h
  split at h
  case h_2 => exact absurd h (by simp)
  case h_1 xs =>
    split at h
    · exact absurd h (by simp)
    · split at h
      · exact absurd h (by simp)
      · rename_i hd
        split at h
        · exact absurd h (by simp)
        · exact absurd h (by simp)
        · rename_i ns hnp
          split at h
          · exact absurd h (by simp)
          · have hlen : ns.length = xs.length :=
              mapOpt_length _ _ _ (npAsArray_one_eq xs ns hnp)
            have hxd : xs.length = d := by
              unfold dimMismatch at hd
              simpa using hd
            injection h with h'
            rw [← h']
            simp [hlen, hxd]

/-! ### Last-write-wins characterisation of the join table -/

theorem movieInsert_apply_of_eq (acc : String → Option Rec) (m : Rec) (k : String)
    (hm : stable_key m = k) (hne : stable_key m ≠ "") :
    movieInsert acc m k = some m := by
  unfold movieInsert
  rw [if_neg hne]
  show (if k = stable_key m then some m else acc k) = some m
  rw [if_pos hm.symm]

theorem movieInsert_apply_of_skip (acc : String → Option Rec) (m : Rec) (k : String)
    (h : stable_key m = "" ∨ stable_key m ≠ k) :
    movieInsert acc m k = acc k := by
  unfold movieInsert
  by_cases hz : stable_key m = ""
  · rw [if_pos hz]
  · rw [if_neg hz]
    show (if k = stable_key m then some m else acc k) = acc k
    have hm : stable_key m ≠ k := h.resolve_left hz
    rw [if_neg (fun h' => hm h'.symm)]

theorem buildMovieByKey_foldl (ms : List Rec) (k : String) (hk : k ≠ "") :
    ∀ acc : String → Option Rec,
      (ms.foldl movieInsert acc) k
        = ((ms.filter (fun m => stable_key m = k)).getLast?).or (acc k) := by
  induction ms with
  | nil => intro acc; rfl
  | cons m rest ih =>
    intro acc
    rw [List.foldl_cons, ih (movieInsert acc m), List.filter_cons]
    by_cases hm : stable_key m = k
    · have hne : stable_key m ≠ "" := by rw [hm]; exact hk
      have hd : decide (stable_key m = k) = true := decide_eq_true hm
      rw [hd, if_pos rfl, getLast?_cons_or, movieInsert_apply_of_eq acc m k hm hne]
      cases (rest.filter (fun m => stable_key m = k)).getLast? <;> rfl
    · have hd : decide (stable_key m = k) = false := decide_eq_false hm
      rw [hd, if_neg (by simp), movieInsert_apply_of_skip acc m k (Or.inr hm)]

theorem buildMovieByKey_eq_lastMovieWith (ms : List Rec) (k : String) (hk : k ≠ "") :
    buildMovieByKey ms k = lastMovieWith ms k := by
  unfold buildMovieByKey lastMovieWith
  rw [buildMovieByKey_foldl ms k hk]
  cases (ms.filter (fun m => stable_key m = k)).getLast? <;> rfl

/-! ### Real-valued facts about row normalisation -/

theorem sum_sq_nonneg (l : List ℝ) : 0 ≤ (l.map (fun x => x ^ 2)).sum := by
  induction l with
  | nil => simp
  | cons x xs ih =>
    simp only [List.map_cons, List.sum_cons]
    exact add_nonneg (sq_nonneg x) ih

theorem sum_sq_div (l : List ℝ) (n : ℝ) :
    ((l.map (fun x => x / n)).map (fun x => x ^ 2)).sum = (l.map (fun x => x ^ 2)).sum / n ^ 2 := by
  induction l with
  | nil => simp
  | cons x xs ih =>
    simp only [List.map_cons, List.sum_cons, ih]
    rw [div_pow, div_add_div_same]

/-! ### Inversion lemmas for the pipeline -/

theorem processRecord_some_eq (mb : String → Option Rec) (d : Nat) (r : Rec)
    (v : List ℚ) (it : Meta) (h : processRecord mb d r = some (v, it)) :
    vectorKey r ≠ "" ∧
    coerce_vector (recGetD r "vector") (some d) = some v ∧
    it = mkMeta ((mb (vectorKey r)).getD []) r (vectorKey r) := by
  unfold processRecord at h
  by_cases hk : vectorKey r = ""
  · simp [hk] at h
  · simp only [hk, if_false, reduceIte] at h
    cases hc : coerce_vector (recGetD r "vector") (some d) <;> rw [hc] at h
    · simp at h
    · injection h with h'
      have hfst := congrArg Prod.fst h'
      have hsnd := congrArg Prod.snd h'
      simp at hfst hsnd
      exact ⟨hk, by rw [hfst], hsnd.symm⟩

theorem build_ok_inv (movies vectors : List Rec) (out : BuildOut)
    (h : build_faiss_index movies vectors = .ok out) :
    ∃ d, inferDim vectors = some d ∧
      out.dim = d ∧
      out.mat = (vectors.filterMap (processRecord (buildMovieByKey movies) d)).map Prod.fst ∧
      out.items = (vectors.filterMap (processRecord (buildMovieByKey movies) d)).map Prod.snd ∧
      out.count = out.items.length ∧
      out.skipped = vectors.countP (fun r => (processRecord (buildMovieByKey movies) d r).isNone) := by
  unfold build_faiss_index at h
  by_cases hv : vectors.isEmpty
  · rw [if_pos hv] at h
    exact absurd h (by simp)
  · rw [if_neg hv] at h
    cases hid : inferDim vectors <;> rw [hid] at h
    · exact absurd h (by simp)
    · rename_i d
      refine ⟨d, rfl, ?_⟩
      dsimp only at h
      rw [foldl_loopStep] at h
      simp only [List.nil_append, Nat.zero_add] at h
      by_cases hm :
          ((vectors.filterMap (processRecord (buildMovieByKey movies) d)).map Prod.fst).isEmpty
      · rw [if_pos hm] at h
        exact absurd h (by simp)
      · rw [if_neg hm] at h
        injection h with h'
        rw [← h']
        simp

/-! ### C1: key resolution on the two record types -/

/-- C1 is false as stated: the precedence chain is NOT applied
identically to both record types.  A record carrying both a `key` and an
`imdbId` field resolves to the explicit `key` when processed as a vector
record (join-loop resolution, line 106) but to the `imdbId` when
processed as a movie record (`_stable_key`, line 83), so the two sides
produce different keys for identical fields. -/
theorem c1_counterexample :
    vectorKey [("key", JVal.str "a"), ("imdbId", JVal.str "b")] = "a" ∧
    stable_key [("key", JVal.str "a"), ("imdbId", JVal.str "b")] = "b" ∧
    vectorKey [("key", JVal.str "a"), ("imdbId", JVal.str "b")]
      ≠ stable_key [("key", JVal.str "a"), ("imdbId", JVal.str "b")] := by
  refine ⟨by decide, by decide, by decide⟩

/-- C1 (amended): the stable-key fallback chain itself is one shared
function applied to both record types, but a vector record's explicit
non-empty `key` field takes precedence over the whole chain; hence the
vector-side and movie-side resolutions of one record agree whenever the
record's trimmed `key` field is empty, or its `imdbId` and `id` fields
both trim to empty (in which case the chain itself returns the `key`
field). -/
theorem c1_key_agreement (r : Rec)
    (h : pyStrip (strOr (recGet r "key")) = "" ∨
         (pyStrip (strOr (recGet r "imdbId")) = "" ∧ pyStrip (strOr (recGet r "id")) = "")) :
    vectorKey r = stable_key r := by
  unfold vectorKey
  by_cases hk : pyStrip (strOr (recGet r "key")) = ""
  · simp [hk]
  · obtain ⟨hi, hid⟩ := h.resolve_left hk
    show (if pyStrip (strOr (recGet r "key")) ≠ "" then pyStrip (strOr (recGet r "key"))
          else stable_key r) = stable_key r
    rw [if_pos hk]
    unfold stable_key
    rw [if_neg (by simp [hi]), if_neg (by simp [hid]), if_pos hk]

/-- Witness for `c1_key_agreement` at a record with only a title. -/
theorem c1_witness :
    vectorKey [("title", JVal.str "T")] = stable_key [("title", JVal.str "T")] :=
  c1_key_agreement [("title", JVal.str "T")] (Or.inl (by decide))

/-! ### C2: composition of the Output Metadata Item -/

/-- C2 is false as stated: a field that is present on the joined movie
record but bound to a falsy value (here `title` bound to the empty
string) does NOT take precedence — the composition tests Python
truthiness, not presence, so the vector record's own value is used
instead. -/
theorem c2_counterexample :
    recGet [("imdbId", JVal.str "k"), ("title", JVal.str "")] "title" = some (JVal.str "") ∧
    (buildItems [[("imdbId", JVal.str "k"), ("title", JVal.str "")]]
        [[("key", JVal.str "k"), ("vector", JVal.arr [JVal.num (JNum.int 1)]),
          ("title", JVal.str "V")]]).map (fun it => it.title) = [JVal.str "V"] ∧
    (JVal.str "V" : JVal) ≠ JVal.str "" := by
  refine ⟨rfl, rfl, fun h => ?_⟩
  exact absurd (JVal.str.inj h) (by decide)

/-- C2 (amended): for every retained vector record, each produced field
equals the joined movie record's value whenever that value is truthy
(non-null, non-empty, non-zero, not false), and otherwise falls back to
the vector record's own same-named field (null when absent), with
`moodTags` additionally defaulting to an empty sequence when both sides
are falsy; the `key` field carries the resolved join key. -/
theorem c2_field_preference (mb : String → Option Rec) (d : Nat) (r : Rec)
    (v : List ℚ) (it : Meta) (h : processRecord mb d r = some (v, it)) :
    fieldPref ((mb (vectorKey r)).getD []) r "imdbId" it.imdbId ∧
    fieldPref ((mb (vectorKey r)).getD []) r "id" it.id ∧
    fieldPref ((mb (vectorKey r)).getD []) r "title" it.title ∧
    fieldPref ((mb (vectorKey r)).getD []) r "year" it.year ∧
    fieldPref ((mb (vectorKey r)).getD []) r "genre" it.genre ∧
    fieldPref ((mb (vectorKey r)).getD []) r "productionCountry" it.productionCountry ∧
    (pyTruthy (recGetD ((mb (vectorKey r)).getD []) "moodTags") = true →
      it.moodTags = recGetD ((mb (vectorKey r)).getD []) "moodTags") ∧
    (pyTruthy (recGetD ((mb (vectorKey r)).getD []) "moodTags") = false →
      pyTruthy (recGetD r "moodTags") = true → it.moodTags = recGetD r "moodTags") ∧
    (pyTruthy (recGetD ((mb (vectorKey r)).getD []) "moodTags") = false →
      pyTruthy (recGetD r "moodTags") = false → it.moodTags = JVal.arr []) ∧
    it.key = vectorKey r := by
  obtain ⟨hk, hc, hit⟩ := processRecord_some_eq mb d r v it h
  subst hit
  refine ⟨⟨?_, ?_⟩, ⟨?_, ?_⟩, ⟨?_, ?_⟩, ⟨?_, ?_⟩, ⟨?_, ?_⟩, ⟨?_, ?_⟩, ?_, ?_, ?_, rfl⟩ <;>
    intros <;> simp_all [fieldPref, mkMeta, pyOr]

/-- Witness for `c2_field_preference`: a record joined to a movie whose
`title` is truthy and whose `genre` is absent; the item takes the
movie's title, the vector's genre, and the default empty `moodTags`. -/
theorem c2_witness :
    (mkMeta [("title", JVal.str "M")]
        [("key", JVal.str "k"), ("vector", JVal.arr [JVal.num (JNum.int 1)]),
         ("title", JVal.str "V"), ("genre", JVal.str "G")] "k").title = JVal.str "M" ∧
    (mkMeta [("title", JVal.str "M")]
        [("key", JVal.str "k"), ("vector", JVal.arr [JVal.num (JNum.int 1)]),
         ("title", JVal.str "V"), ("genre", JVal.str "G")] "k").genre = JVal.str "G" ∧
    (mkMeta [("title", JVal.str "M")]
        [("key", JVal.str "k"), ("vector", JVal.arr [JVal.num (JNum.int 1)]),
         ("title", JVal.str "V"), ("genre", JVal.str "G")] "k").moodTags = JVal.arr [] := by
  have h := c2_field_preference
      (fun q => if q = "k" then some [("title", JVal.str "M")] else none) 1
      [("key", JVal.str "k"), ("vector", JVal.arr [JVal.num (JNum.int 1)]),
       ("title", JVal.str "V"), ("genre", JVal.str "G")]
      [1]
      (mkMeta [("title", JVal.str "M")]
        [("key", JVal.str "k"), ("vector", JVal.arr [JVal.num (JNum.int 1)]),
         ("title", JVal.str "V"), ("genre", JVal.str "G")] "k")
      rfl
  exact ⟨h.2.2.1.1 rfl, h.2.2.2.2.1.2 rfl, h.2.2.2.2.2.2.2.2.1 rfl rfl⟩

/-! ### C3: positional alignment of index rows and sidecar items -/

/-- C3: for every successful run, zipping the matrix rows with the
sidecar items reproduces exactly the per-record outcomes of the join
loop in input order — row i and item i come from the same source vector
record — the sidecar count equals the number of matrix rows, and batch
normalisation maps the rows positionally (never reordering them). -/
theorem c3_alignment (movies vectors : List Rec) (out : BuildOut)
    (h : build_faiss_index movies vectors = .ok out) :
    out.mat.zip out.items
      = vectors.filterMap (processRecord (buildMovieByKey movies) out.dim) ∧
    out.count = out.items.length ∧
    out.items.length = out.mat.length ∧
    normalizeMat out.mat = out.mat.map normalizeRow := by
  obtain ⟨d, hid, hdim, hmat, hitems, hcount, hskip⟩ := build_ok_inv movies vectors out h
  subst hdim
  refine ⟨?_, hcount, ?_, rfl⟩
  · rw [hmat, hitems, zip_map_fst_snd_eq]
  · rw [hmat, hitems]
    simp

/-- Witness for `c3_alignment` on a one-record input. -/
theorem c3_witness :
    ([[(1 : ℚ)]].zip
        [mkMeta [] [("key", JVal.str "k"), ("vector", JVal.arr [JVal.num (JNum.int 1)])] "k"]
      = [[("key", JVal.str "k"), ("vector", JVal.arr [JVal.num (JNum.int 1)])]].filterMap
          (processRecord (buildMovieByKey []) 1)) ∧
    (1 : Nat) = [mkMeta [] [("key", JVal.str "k"), ("vector", JVal.arr [JVal.num (JNum.int 1)])] "k"].length ∧
    [mkMeta [] [("key", JVal.str "k"), ("vector", JVal.arr [JVal.num (JNum.int 1)])] "k"].length
      = [[(1 : ℚ)]].length ∧
    normalizeMat [[(1 : ℚ)]] = [[(1 : ℚ)]].map normalizeRow :=
  c3_alignment [] [[("key", JVal.str "k"), ("vector", JVal.arr [JVal.num (JNum.int 1)])]]
    ⟨1, 1, 0, [mkMeta [] [("key", JVal.str "k"), ("vector", JVal.arr [JVal.num (JNum.int 1)])] "k"],
      [[1]]⟩
    rfl

/-! ### C10: every parsed vector record is accounted for exactly once -/

/-- C10: on every successful run, the number of retained items plus the
skipped tally equals the number of parsed vector records. -/
theorem c10_accounting (movies vectors : List Rec) (out : BuildOut)
    (h : build_faiss_index movies vectors = .ok out) :
    out.count + out.skipped = vectors.length := by
  obtain ⟨d, hid, hdim, hmat, hitems, hcount, hskip⟩ := build_ok_inv movies vectors out h
  rw [hcount, hitems, hskip]
  simpa using length_filterMap_add_countP (processRecord (buildMovieByKey movies) d) vectors

/-- Witness for `c10_accounting`: one retained record, one record
skipped for lack of a resolvable key. -/
theorem c10_witness :
    (1 : Nat) + 1
      = ([[("key", JVal.str "k"), ("vector", JVal.arr [JVal.num (JNum.int 1)])],
          [("vector", JVal.arr [JVal.num (JNum.int 2)])]] : List Rec).length :=
  c10_accounting []
    [[("key", JVal.str "k"), ("vector", JVal.arr [JVal.num (JNum.int 1)])],
     [("vector", JVal.arr [JVal.num (JNum.int 2)])]]
    ⟨1, 1, 1, [mkMeta [] [("key", JVal.str "k"), ("vector", JVal.arr [JVal.num (JNum.int 1)])] "k"],
      [[1]]⟩
    rfl

/-! ### C4: duplicate keys -/

theorem length_filterMap_eq_countP_isSome {α β : Type} (f : α → Option β) (l : List α) :
    (l.filterMap f).length = l.countP (fun a => (f a).isSome) := by
  induction l with
  | nil => rfl
  | cons a rest ih =>
    cases h : f a <;> simp [List.filterMap_cons, List.countP_cons, h, ih]

/-- C4 is false as stated: duplicate keys in the VECTORS dataset are not
collapsed.  Two vector records resolving to the same key each produce
their own output row, so more than one output row exists for the
duplicated key. -/
theorem c4_counterexample :
    (buildItems [] [[("key", JVal.str "k"), ("vector", JVal.arr [JVal.num (JNum.int 1)])],
        [("key", JVal.str "k"), ("vector", JVal.arr [JVal.num (JNum.int 2)])]]).map
      (fun it => it.key) = ["k", "k"] ∧
    ¬ (buildItems [] [[("key", JVal.str "k"), ("vector", JVal.arr [JVal.num (JNum.int 1)])],
        [("key", JVal.str "k"), ("vector", JVal.arr [JVal.num (JNum.int 2)])]]).length ≤ 1 :=
  ⟨rfl, by decide⟩

/-- C4 (amended): last-occurrence-wins holds for the MOVIES join table —
its lookup at any non-empty key returns the last movie record observed
with that key — but duplicated keys among vector records are NOT
deduplicated: the number of output rows equals the number of records
passing key and vector validation, with no per-key collapsing. -/
theorem c4_last_wins (movies : List Rec) (k : String) (hk : k ≠ "")
    (mb : String → Option Rec) (d : Nat) (vectors : List Rec) :
    buildMovieByKey movies k = lastMovieWith movies k ∧
    (vectors.foldl (loopStep mb d) ([], [], 0)).2.1.length
      = vectors.countP (fun r => (processRecord mb d r).isSome) := by
  refine ⟨buildMovieByKey_eq_lastMovieWith movies k hk, ?_⟩
  rw [foldl_loopStep]
  simp only [List.nil_append, List.length_map]
  exact length_filterMap_eq_countP_isSome _ _

/-- Witness for `c4_last_wins`. -/
theorem c4_witness :
    buildMovieByKey [[("imdbId", JVal.str "k")]] "k"
      = lastMovieWith [[("imdbId", JVal.str "k")]] "k" ∧
    ([[("key", JVal.str "a"), ("vector", JVal.arr [JVal.num (JNum.int 1)])]].foldl
        (loopStep (fun _ => none) 1) ([], [], 0)).2.1.length
      = [[("key", JVal.str "a"), ("vector", JVal.arr [JVal.num (JNum.int 1)])]].countP
          (fun r => (processRecord (fun _ => none) 1 r).isSome) :=
  c4_last_wins [[("imdbId", JVal.str "k")]] "k" (by decide) (fun _ => none) 1
    [[("key", JVal.str "a"), ("vector", JVal.arr [JVal.num (JNum.int 1)])]]

/-! ### C5: error behaviour and absence of partial output -/

theorem filterMap_pr_length_indep (mb mb' : String → Option Rec) (d : Nat) (vectors : List Rec) :
    (vectors.filterMap (processRecord mb d)).length
      = (vectors.filterMap (processRecord mb' d)).length := by
  induction vectors with
  | nil => rfl
  | cons r rest ih =>
    have hin := processRecord_isNone_indep mb mb' d r
    cases h1 : processRecord mb d r <;> cases h2 : processRecord mb' d r <;>
      rw [h1, h2] at hin <;> simp_all [List.filterMap_cons]

theorem errOf_movies_indep (movies movies' vectors : List Rec) :
    errOf (build_faiss_index movies vectors) = errOf (build_faiss_index movies' vectors) := by
  unfold build_faiss_index
  by_cases hv : vectors.isEmpty
  · rw [if_pos hv, if_pos hv]
  · rw [if_neg hv, if_neg hv]
    cases hid : inferDim vectors
    · rfl
    · rename_i d
      dsimp only
      rw [foldl_loopStep, foldl_loopStep]
      simp only [List.nil_append]
      have hlen := filterMap_pr_length_indep (buildMovieByKey movies) (buildMovieByKey movies') d
        vectors
      by_cases he :
          ((vectors.filterMap (processRecord (buildMovieByKey movies) d)).map Prod.fst).isEmpty
      · have he' :
            ((vectors.filterMap (processRecord (buildMovieByKey movies') d)).map Prod.fst).isEmpty := by
          rw [List.isEmpty_iff_length_eq_zero] at he ⊢
          simpa [← hlen] using he
        rw [if_pos he, if_pos he']
      · have he' :
            ¬ ((vectors.filterMap (processRecord (buildMovieByKey movies') d)).map Prod.fst).isEmpty := by
          rw [List.isEmpty_iff_length_eq_zero] at he ⊢
          simpa [← hlen] using he
        rw [if_neg he, if_neg he']
        rfl

/-- C5: `MissingInputError` is raised exactly when the vectors dataset
yields zero parsed records; the movies side never contributes to the
error outcome (so an empty or missing movies dataset is not an error);
and a failing run emits no write event — neither the index nor the
sidecar is written on any fatal error. -/
theorem c5_error_policy (movies vectors : List Rec) :
    (build_faiss_index movies vectors = .error .missingInput ↔ vectors = []) ∧
    errOf (build_faiss_index movies vectors) = errOf (build_faiss_index [] vectors) ∧
    (∀ loads : String → Option JVal, iter_ndjson loads none = []) ∧
    (errOf (build_faiss_index movies vectors) ≠ none → writeEvents movies vectors = []) := by
  refine ⟨⟨?_, ?_⟩, errOf_movies_indep movies [] vectors, fun _ => rfl, ?_⟩
  · intro h
    by_cases hv : vectors.isEmpty
    · exact List.isEmpty_iff.mp hv
    · exfalso
      unfold build_faiss_index at h
      rw [if_neg hv] at h
      cases hid : inferDim vectors <;> rw [hid] at h
      · exact absurd (Except.error.inj h) (by intro hh; cases hh)
      · rename_i d
        dsimp only at h
        by_cases he : ((vectors.foldl (loopStep (buildMovieByKey movies) d) ([], [], 0)).1).isEmpty
        · rw [if_pos he] at h
          exact absurd (Except.error.inj h) (by intro hh; cases hh)
        · rw [if_neg he] at h
          cases h
  · intro h
    subst h
    rfl
  · intro hne
    unfold writeEvents
    cases hb : build_faiss_index movies vectors
    · rfl
    · rw [hb] at hne
      simp [errOf] at hne

/-- Witness for `c5_error_policy` at an empty vectors dataset. -/
theorem c5_witness :
    build_faiss_index [] [] = .error .missingInput ∧ writeEvents [] [] = [] :=
  ⟨(c5_error_policy [] []).1.mpr rfl, (c5_error_policy [] []).2.2.2 (by decide)⟩

/-! ### C6: dimension inference and uniformity -/

/-- C6: the inferred dimension is the length of the `vector` field of
the first record, in file order, whose `vector` field is a non-empty
list; every retained matrix row has exactly the inferred dimension; and
when the vectors dataset is non-empty but no record has a usable vector,
the run fails with `InvalidInputError`. -/
theorem c6_dimension :
    (∀ rows : List Rec, inferDim rows = (rows.find? usableVec).map vecLen) ∧
    (∀ movies vectors out, build_faiss_index movies vectors = .ok out →
      ∀ row ∈ out.mat, row.length = out.dim) ∧
    (∀ movies vectors : List Rec, vectors ≠ [] → inferDim vectors = none →
      build_faiss_index movies vectors = .error .invalidInput) := by
  refine ⟨?_, ?_, ?_⟩
  · intro rows
    induction rows with
    | nil => rfl
    | cons r rest ih =>
      cases hv : recGetD r "vector" with
      | arr xs =>
        by_cases hl : xs.length > 0
        · have hu : usableVec r = true := by
            unfold usableVec
            rw [hv]
            simpa [List.isEmpty_iff, ← List.length_pos] using hl
          rw [List.find?_cons_of_pos _ hu]
          simp only [inferDim, hv, if_pos hl, Option.map_some']
          unfold vecLen
          rw [hv]
        · have hu : ¬ usableVec r = true := by
            unfold usableVec
            rw [hv]
            simpa [List.isEmpty_iff, ← List.length_pos] using hl
          rw [List.find?_cons_of_neg _ hu]
          simp only [inferDim, hv, if_neg hl]
          exact ih
      | null =>
        have hu : ¬ usableVec r = true := by unfold usableVec; rw [hv]; simp
        rw [List.find?_cons_of_neg _ hu]
        simp only [inferDim, hv]
        exact ih
      | bool b =>
        have hu : ¬ usableVec r = true := by unfold usableVec; rw [hv]; simp
        rw [List.find?_cons_of_neg _ hu]
        simp only [inferDim, hv]
        exact ih
      | num x =>
        have hu : ¬ usableVec r = true := by unfold usableVec; rw [hv]; simp
        rw [List.find?_cons_of_neg _ hu]
        simp only [inferDim, hv]
        exact ih
      | str s =>
        have hu : ¬ usableVec r = true := by unfold usableVec; rw [hv]; simp
        rw [List.find?_cons_of_neg _ hu]
        simp only [inferDim, hv]
        exact ih
      | obj fs =>
        have hu : ¬ usableVec r = true := by unfold usableVec; rw [hv]; simp
        rw [List.find?_cons_of_neg _ hu]
        simp only [inferDim, hv]
        exact ih
  · intro movies vectors out h row hrow
    obtain ⟨d, hid, hdim, hmat, hitems, hcount, hskip⟩ := build_ok_inv movies vectors out h
    subst hdim
    rw [hmat] at hrow
    obtain ⟨p, hp, hpe⟩ := List.mem_map.mp hrow
    obtain ⟨r, hr, hpr⟩ := List.mem_filterMap.mp hp
    obtain ⟨v2, it⟩ := p
    obtain ⟨hk, hc, hit⟩ := processRecord_some_eq _ _ _ _ _ hpr
    simp only at hpe
    rw [← hpe]
    exact coerce_vector_length _ _ _ hc
  · intro movies vectors hne hid
    unfold build_faiss_index
    rw [if_neg (by simpa [List.isEmpty_iff] using hne), hid]

/-- Witness for `c6_dimension`: the find-characterisation at the empty
dataset, a retained row of the inferred length, and the invalid-input
failure on a dataset with no usable vector. -/
theorem c6_witness :
    inferDim [] = (List.find? usableVec []).map vecLen ∧
    ([(1 : ℚ)]).length = (1 : Nat) ∧
    build_faiss_index [] [[("title", JVal.str "t")]] = .error .invalidInput := by
  refine ⟨c6_dimension.1 [], ?_, ?_⟩
  · exact c6_dimension.2.1 []
      [[("key", JVal.str "k"), ("vector", JVal.arr [JVal.num (JNum.int 1)])]]
      ⟨1, 1, 0,
        [mkMeta [] [("key", JVal.str "k"), ("vector", JVal.arr [JVal.num (JNum.int 1)])] "k"],
        [[1]]⟩
      rfl [1] (by simp)
  · exact c6_dimension.2.2 [] [[("title", JVal.str "t")]] (by simp) rfl

/-! ### C7: batch normalisation -/

/-- C7: after batch normalisation, the row at any index whose original
L2 norm is nonzero has Euclidean norm exactly 1 (in the idealised real
model of float32 arithmetic), and the row at any index whose original
norm is zero is left exactly unchanged (the norm is replaced by 1 before
dividing). -/
theorem c7_normalization (mat : List (List ℚ)) (i : Nat) (hi : i < mat.length) :
    (rowNorm (mat.getD i []) ≠ 0 →
      rowNormR ((normalizeMat mat).getD i []) = 1) ∧
    (rowNorm (mat.getD i []) = 0 →
      (normalizeMat mat).getD i [] = (mat.getD i []).map (fun q => (q : ℝ))) := by
  have hrow : (normalizeMat mat).getD i [] = normalizeRow (mat.getD i []) := by
    unfold normalizeMat
    rw [List.getD_eq_getElem?_getD, List.getElem?_map, List.getElem?_eq_getElem hi,
      List.getD_eq_getElem?_getD, List.getElem?_eq_getElem hi]
    rfl
  rw [hrow]
  constructor
  · intro h
    have hmm : normalizeRow (mat.getD i [])
        = ((mat.getD i []).map (fun q => (q : ℝ))).map (fun x => x / rowNorm (mat.getD i [])) := by
      unfold normalizeRow
      dsimp only
      rw [if_neg h, List.map_map]
      rfl
    have hs : (0 : ℝ) ≤ (((mat.getD i []).map (fun q => (q : ℝ))).map (fun x => x ^ 2)).sum :=
      sum_sq_nonneg _
    have hss : Real.sqrt ((((mat.getD i []).map (fun q => (q : ℝ))).map (fun x => x ^ 2)).sum)
        = rowNorm (mat.getD i []) := rfl
    have hs0 : (((mat.getD i []).map (fun q => (q : ℝ))).map (fun x => x ^ 2)).sum ≠ 0 := by
      intro h0
      exact h (by rw [← hss, h0, Real.sqrt_zero])
    have hn2 : rowNorm (mat.getD i []) ^ 2
        = (((mat.getD i []).map (fun q => (q : ℝ))).map (fun x => x ^ 2)).sum := by
      rw [← hss]
      exact Real.sq_sqrt hs
    rw [hmm]
    unfold rowNormR
    rw [sum_sq_div, hn2, div_self hs0, Real.sqrt_one]
  · intro h
    unfold normalizeRow
    dsimp only
    rw [if_pos h]
    simp

/-- Witness for `c7_normalization` at the matrix `[[3,4],[0,0]]`: the
first row normalises to unit norm, the zero row is unchanged. -/
theorem c7_witness :
    rowNormR ((normalizeMat [[3, 4], [0, 0]]).getD 0 []) = 1 ∧
    (normalizeMat [[(3 : ℚ), 4], [0, 0]]).getD 1 [] = ([(0 : ℚ), 0]).map (fun q => (q : ℝ)) := by
  have h34 : rowNorm ([(3 : ℚ), 4]) = Real.sqrt 25 := by
    unfold rowNorm rowNormR
    norm_num
  have h00 : rowNorm ([(0 : ℚ), 0]) = 0 := by
    unfold rowNorm rowNormR
    norm_num
  constructor
  · refine (c7_normalization [[3, 4], [0, 0]] 0 (by decide)).1 ?_
    show rowNorm ([(3 : ℚ), 4]) ≠ 0
    rw [h34]
    exact Real.sqrt_ne_zero'.mpr (by norm_num)
  · exact (c7_normalization [[3, 4], [0, 0]] 1 (by decide)).2 h00

/-! ### C8: the Vector Coercer -/

/-- C8: the coercion rejects exactly when the value is not a list or is
empty, or an expected dimension is provided and the length differs, or
the elements cannot be converted to numbers, or the converted result is
not one-dimensional, or some element is non-finite; on acceptance it
returns exactly the converted values, with no further transformation. -/
theorem c8_coercion (v : JVal) (d : Option Nat) :
    (coerce_vector v d = none ↔
      ((∀ xs : List JVal, v ≠ .arr xs) ∨
       v = .arr [] ∨
       (∃ xs n, v = .arr xs ∧ d = some n ∧ xs.length ≠ n) ∨
       (∃ xs, v = .arr xs ∧ npAsArray xs = none) ∨
       (∃ xs rows, v = .arr xs ∧ npAsArray xs = some (.two rows)) ∨
       (∃ xs ns, v = .arr xs ∧ npAsArray xs = some (.one ns) ∧ ns.any nonFinite = true))) ∧
    (∀ xs ns, v = .arr xs → xs ≠ [] →
      (∀ n, d = some n → xs.length = n) →
      npAsArray xs = some (.one ns) → ns.any nonFinite = false →
      coerce_vector v d = some (ns.map toRat)) := by
  have harr : ∀ xs : List JVal, coerce_vector (JVal.arr xs) d
      = (if xs.isEmpty = true then none
         else if dimMismatch xs.length d = true then none
         else
           match npAsArray xs with
           | none => none
           | some (.two _) => none
           | some (.one ns) => if ns.any nonFinite = true then none else some (ns.map toRat)) :=
    fun _ => rfl
  constructor
  · constructor
    · intro h
      cases v with
      | arr xs =>
        by_cases he : xs.isEmpty = true
        · exact Or.inr (Or.inl (by rw [List.isEmpty_iff.mp he]))
        · by_cases hd : dimMismatch xs.length d = true
          · refine Or.inr (Or.inr (Or.inl ?_))
            cases d with
            | none => exact absurd hd (by simp [dimMismatch])
            | some n => exact ⟨xs, n, rfl, rfl, by simpa [dimMismatch] using hd⟩
          · rw [harr xs, if_neg he, if_neg hd] at h
            cases hnp : npAsArray xs <;> rw [hnp] at h
            · exact Or.inr (Or.inr (Or.inr (Or.inl ⟨xs, rfl, hnp⟩)))
            · rename_i arr
              cases arr with
              | two rows =>
                exact Or.inr (Or.inr (Or.inr (Or.inr (Or.inl ⟨xs, rows, rfl, hnp⟩))))
              | one ns =>
                by_cases hf : ns.any nonFinite = true
                · exact Or.inr (Or.inr (Or.inr (Or.inr (Or.inr ⟨xs, ns, rfl, hnp, hf⟩))))
                · rw [show (match some (NpArr.one ns) with
                      | none => (none : Option (List ℚ))
                      | some (.two _) => none
                      | some (.one ns) => if ns.any nonFinite = true then none
                          else some (ns.map toRat))
                      = (if ns.any nonFinite = true then none else some (ns.map toRat))
                      from rfl, if_neg hf] at h
                  cases h
      | null => exact Or.inl (fun xs hxs => by cases hxs)
      | bool b => exact Or.inl (fun xs hxs => by cases hxs)
      | num x => exact Or.inl (fun xs hxs => by cases hxs)
      | str s => exact Or.inl (fun xs hxs => by cases hxs)
      | obj fs => exact Or.inl (fun xs hxs => by cases hxs)
    · intro h
      cases v with
      | arr xs =>
        rw [harr xs]
        by_cases he : xs.isEmpty = true
        · rw [if_pos he]
        · rw [if_neg he]
          by_cases hd : dimMismatch xs.length d = true
          · rw [if_pos hd]
          · rw [if_neg hd]
            cases hnp : npAsArray xs
            · rfl
            · rename_i arr
              cases arr with
              | two rows => rfl
              | one ns =>
                show (if ns.any nonFinite = true then none else some (ns.map toRat)) = none
                rcases h with h1 | h2 | h3 | h4 | h5 | h6
                · exact absurd rfl (h1 xs)
                · injection h2 with hx
                  subst hx
                  exact absurd rfl he
                · obtain ⟨xs', n, hxe, hde, hln⟩ := h3
                  injection hxe with hx
                  subst hx
                  subst hde
                  exact absurd (by simpa [dimMismatch] using hln) hd
                · obtain ⟨xs', hxe, hnone⟩ := h4
                  injection hxe with hx
                  subst hx
                  rw [hnone] at hnp
                  cases hnp
                · obtain ⟨xs', rows, hxe, htwo⟩ := h5
                  injection hxe with hx
                  subst hx
                  rw [htwo] at hnp
                  cases hnp
                · obtain ⟨xs', ns', hxe, hone, hfin⟩ := h6
                  injection hxe with hx
                  subst hx
                  rw [hone] at hnp
                  injection hnp with hnp'
                  injection hnp' with hns
                  rw [hns] at hfin
                  rw [if_pos hfin]
      | null => rfl
      | bool b => rfl
      | num x => rfl
      | str s => rfl
      | obj fs => rfl
  · intro xs ns hveq hne hdim hnp hfin
    subst hveq
    have he : ¬ xs.isEmpty = true := by simpa [List.isEmpty_iff] using hne
    have hd : ¬ dimMismatch xs.length d = true := by
      cases d with
      | none => simp [dimMismatch]
      | some n => simp [dimMismatch, hdim n rfl]
    rw [harr xs, if_neg he, if_neg hd, hnp]
    show (if ns.any nonFinite = true then none else some (ns.map toRat)) = some (ns.map toRat)
    rw [if_neg (by simp [hfin])]

/-- Witness for `c8_coercion`: a well-formed two-element vector with the
matching expected dimension is accepted unchanged. -/
theorem c8_witness :
    coerce_vector (JVal.arr [JVal.num (JNum.int 1), JVal.num (JNum.int 2)]) (some 2)
      = some ([JNum.int 1, JNum.int 2].map toRat) :=
  (c8_coercion (JVal.arr [JVal.num (JNum.int 1), JVal.num (JNum.int 2)]) (some 2)).2
    [JVal.num (JNum.int 1), JVal.num (JNum.int 2)] [JNum.int 1, JNum.int 2]
    rfl (by simp)
    (fun n hn => by rw [← Option.some.inj hn]; rfl)
    rfl rfl

/-! ### C9: the Record Reader -/

theorem iterGo_eq_enumFrom (loads : String → Option JVal) (i : Nat) (ls : List String) :
    iterGo loads i ls = (List.enumFrom i ls).filterMap (keepLine loads) := by
  induction ls generalizing i with
  | nil => rfl
  | cons l rest ih =>
    have hstep : iterGo loads i (l :: rest)
        = (if pyStrip l = "" then iterGo loads (i + 1) rest
           else if (pyStrip l).startsWith "#" || (pyStrip l).startsWith "//" then
             iterGo loads (i + 1) rest
           else
             match loads (pyStrip l) with
             | some (.obj fields) =>
               recSet fields "__line__" (.num (.int (i + 1))) :: iterGo loads (i + 1) rest
             | _ => iterGo loads (i + 1) rest) := rfl
    have hkeep : keepLine loads (i, l)
        = (if pyStrip l = "" then none
           else if (pyStrip l).startsWith "#" || (pyStrip l).startsWith "//" then none
           else
             match loads (pyStrip l) with
             | some (.obj fields) =>
               some (recSet fields "__line__" (.num (.int (i + 1))))
             | _ => none) := rfl
    have henum : List.enumFrom i (l :: rest) = (i, l) :: List.enumFrom (i + 1) rest := rfl
    rw [hstep, henum, List.filterMap_cons, hkeep]
    by_cases h1 : pyStrip l = ""
    · rw [if_pos h1, if_pos h1, ih]
    · rw [if_neg h1, if_neg h1]
      by_cases h2 : ((pyStrip l).startsWith "#" || (pyStrip l).startsWith "//") = true
      · rw [if_pos h2, if_pos h2, ih]
      · rw [if_neg h2, if_neg h2]
        cases hl : loads (pyStrip l) with
        | none => rw [ih]
        | some jv =>
          cases jv with
          | obj fields => rw [ih]
          | null => rw [ih]
          | bool b => rw [ih]
          | num x => rw [ih]
          | str s => rw [ih]
          | arr xs => rw [ih]

/-- C9: the Record Reader returns the empty sequence for a missing file,
and for an existing file returns, in exact file order, one record per
line that survives the keep-filter (non-blank after stripping, not a
`#` or `//` comment, parses as JSON, is an object), each annotated with
its 1-based source line number. -/
theorem c9_record_reader (loads : String → Option JVal) :
    iter_ndjson loads none = [] ∧
    ∀ lines : List String,
      iter_ndjson loads (some lines) = lines.enum.filterMap (keepLine loads) := by
  refine ⟨rfl, fun lines => ?_⟩
  show iterGo loads 0 lines = _
  rw [iterGo_eq_enumFrom]
  rfl
